import Mathlib

/-!
Shallow embedding of the tiered memory system of Dev-Marygold/Coarl-Sugar
(src/core/memory_manager.py, src/core/models.py, src/core/llm_interface.py).

Modelling conventions:
* Python `datetime` values are modelled as `Int` seconds since an epoch.
  The source computes `time_gap = (t2 - t1).total_seconds() / 60` as a float
  and compares `time_gap > gap_minutes`; over the rationals this is equivalent
  to `t2 - t1 > gap_minutes * 60` in seconds, which is what the embedding uses.
* Python floats that carry confidence / relevance values are modelled as `Rat`.
* The per-channel dict `self.working_memory` (with `dict.get(c, [])` reads)
  is modelled as a total function `Channel -> List WorkingMemoryItem` whose
  default value is `[]`.
* Fallible external calls (Pinecone, the LLM interface) are modelled as
  `Except String`-valued oracles; a Python `try/except` block becomes a
  `match` on the `Except` value at the same position as in the source.
* The content of the external Pinecone index is modelled by the `archive`
  field of the pipeline state: `add_texts` appends the stored entry there.
* The SQLite table `semantic_facts` is modelled as a `List FactRow` in rowid
  order; `CURRENT_TIMESTAMP` becomes an explicit `now : Int` argument.
-/

namespace LamyMemory

abbrev Channel := String

/-- Metadata dictionary values (Python `Any` restricted to the shapes that
actually occur in the source: strings and numbers). -/
inductive MetaValue where
  | str (s : String)
  | num (q : Rat)
deriving DecidableEq

/-- models.py `WorkingMemoryItem`: one turn of recent chat history. -/
structure WorkingMemoryItem where
  user_id : String
  user_name : String
  content : String
  timestamp : Int
  channel_id : String
  is_bot_response : Bool
deriving DecidableEq

/-- models.py `EpisodicMemoryItem` (the `created_at` bookkeeping field, set
from the wall clock and never read by the code under study, is omitted). -/
structure EpisodicMemoryItem where
  user_message : String
  bot_response : String
  user_id : String
  user_name : String
  channel_id : String
  timestamp : Int
  relevance_score : Rat
  metadata : List (String × MetaValue)
  embedding_id : Option String
deriving DecidableEq

/-- models.py `SemanticFact` as constructed by the pipeline (the wall-clock
defaulted `created_at` / `last_updated` fields are ignored by the SQL write,
which uses `CURRENT_TIMESTAMP`, so they are omitted from this record). -/
structure SemanticFact where
  fact_type : String
  subject : String
  content : String
  confidence : Rat
  source_memory_ids : List String
deriving DecidableEq

/-- One row of the SQLite table `semantic_facts` (memory_manager.py
`_init_semantic_db`).  Rows are kept in rowid (insertion) order. -/
structure FactRow where
  fact_type : String
  subject : String
  content : String
  confidence : Rat
  source_memory_ids : List String
  created_at : Int
  last_updated : Int
deriving DecidableEq

/-- models.py `MemoryType`. -/
inductive MemoryType where
  | working
  | episodic
  | semantic
deriving DecidableEq

/-- models.py `MemorySearchQuery`. -/
structure MemorySearchQuery where
  query_text : Option String
  user_id : Option String
  channel_id : Option String
  start_date : Option Int
  end_date : Option Int
  limit : Nat
  memory_type : Option MemoryType
deriving DecidableEq

/-- models.py `MemoryConsolidationResult` (the wall-clock `processing_time`
field is not modelled). -/
structure MemoryConsolidationResult where
  processed_messages : Nat
  episodic_memories_created : Nat
  semantic_facts_extracted : Nat
  summary : String
  errors : List String
deriving DecidableEq

def emptyConsolidationResult : MemoryConsolidationResult :=
  { processed_messages := 0, episodic_memories_created := 0,
    semantic_facts_extracted := 0, summary := "", errors := [] }

/-- A document returned by the vector store together with its metadata
(langchain `Document.metadata`); the six keys the code reads back are
explicit fields, everything else lives in `extra`.  Timestamps stored in the
index are modelled as already parsed (`datetime.fromisoformat` failures are
folded into the oracle's error case). -/
structure SearchDoc where
  user_message : Option String
  bot_response : Option String
  user_id : Option String
  user_name : Option String
  channel_id : Option String
  timestamp : Option Int
  extra : List (String × MetaValue)
deriving DecidableEq

/-- The external Pinecone-backed vector store (`PineconeVectorStore`),
modelled as a pair of possibly-failing deterministic oracles. -/
structure VectorStore where
  add_texts : String → List (String × MetaValue) → Except String (List String)
  similarity_search_with_score :
    String → Nat → Option (List (String × String)) →
      Except String (List (SearchDoc × Rat))

/-- The mutable state of `MemoryManager` that the claims touch, plus the
content of the external index (`archive`) and of the SQLite table (`facts`). -/
structure PipelineState where
  working_memory : Channel → List WorkingMemoryItem
  vector_store : Option VectorStore
  facts : List FactRow
  archive : List EpisodicMemoryItem

/-- memory_manager.py: `self.working_memory_limit = 20`. -/
def working_memory_limit : Nat := 20

/-- The trim step of `add_to_working_memory`:
`if len(buf) > limit: buf = buf[-limit:]`. -/
def trimWorkingBuffer (buf : List WorkingMemoryItem) : List WorkingMemoryItem :=
  if working_memory_limit < buf.length then
    buf.drop (buf.length - working_memory_limit)
  else
    buf

/-- memory_manager.py `add_to_working_memory`: append to the channel's list
(creating it if absent, which the total-function model makes implicit),
then trim to the most recent `working_memory_limit` entries. -/
def add_to_working_memory (st : PipelineState) (channel_id : Channel)
    (message : WorkingMemoryItem) : PipelineState :=
  { st with working_memory := fun c =>
      if c = channel_id then trimWorkingBuffer (st.working_memory channel_id ++ [message])
      else st.working_memory c }

/-- memory_manager.py `get_working_memory`: `self.working_memory.get(channel_id, [])`. -/
def get_working_memory (st : PipelineState) (channel_id : Channel) :
    List WorkingMemoryItem :=
  st.working_memory channel_id

/-- memory_manager.py `clear_working_memory`. -/
def clear_working_memory (st : PipelineState) (channel_id : Channel) : PipelineState :=
  { st with working_memory := fun c =>
      if c = channel_id then [] else st.working_memory c }

/-! ### Working-memory window lemmas (claim C3) -/

theorem trimWorkingBuffer_eq_drop (buf : List WorkingMemoryItem) :
    trimWorkingBuffer buf = buf.drop (buf.length - working_memory_limit) := by
  unfold trimWorkingBuffer
  split
  · rfl
  · have h : buf.length - working_memory_limit = 0 := by omega
    rw [h, List.drop_zero]

theorem trimWorkingBuffer_length_le (buf : List WorkingMemoryItem) :
    (trimWorkingBuffer buf).length ≤ working_memory_limit := by
  rw [trimWorkingBuffer_eq_drop, List.length_drop]
  omega

/-- Dropping to the last `n` elements twice is the same as doing it once at
the end: `keepLast n (keepLast n xs ++ ys) = keepLast n (xs ++ ys)`. -/
theorem drop_to_last_append (n : Nat) (xs ys : List WorkingMemoryItem) :
    (xs.drop (xs.length - n) ++ ys).drop
        ((xs.drop (xs.length - n) ++ ys).length - n)
      = (xs ++ ys).drop ((xs ++ ys).length - n) := by
  simp only [List.drop_append_eq_append_drop, List.drop_drop,
    List.length_append, List.length_drop]
  congr 1
  · congr 1
    omega
  · congr 1
    omega

theorem foldl_add_working_memory (channel_id : Channel) :
    ∀ (msgs : List WorkingMemoryItem) (st : PipelineState),
      (msgs.foldl (fun s m => add_to_working_memory s channel_id m) st).working_memory
          channel_id
        = msgs.foldl (fun buf m => trimWorkingBuffer (buf ++ [m]))
            (st.working_memory channel_id)
  | [], _ => rfl
  | m :: rest, st => by
      rw [List.foldl_cons, List.foldl_cons,
        foldl_add_working_memory channel_id rest]
      simp [add_to_working_memory]

theorem foldl_trim_eq_drop :
    ∀ (msgs buf : List WorkingMemoryItem),
      buf.length ≤ working_memory_limit →
      msgs.foldl (fun b m => trimWorkingBuffer (b ++ [m])) buf
        = (buf ++ msgs).drop ((buf ++ msgs).length - working_memory_limit)
  | [], buf, h => by
      have hz : buf.length - working_memory_limit = 0 := by omega
      simp [hz]
  | m :: rest, buf, h => by
      rw [List.foldl_cons,
        foldl_trim_eq_drop rest (trimWorkingBuffer (buf ++ [m]))
          (trimWorkingBuffer_length_le _)]
      rw [trimWorkingBuffer_eq_drop, drop_to_last_append]
      simp [List.append_assoc]

/-- C3: starting from an empty channel buffer, any sequence of appends via
`add_to_working_memory` leaves `get_working_memory` holding exactly the last
`working_memory_limit` (= 20) turns in arrival order (all of them when fewer
were appended), and the buffer length never exceeds the cap. -/
theorem working_memory_window (st : PipelineState) (channel_id : Channel)
    (msgs : List WorkingMemoryItem) (h : st.working_memory channel_id = []) :
    get_working_memory
        (msgs.foldl (fun s m => add_to_working_memory s channel_id m) st) channel_id
      = msgs.drop (msgs.length - working_memory_limit)
    ∧ (get_working_memory
        (msgs.foldl (fun s m => add_to_working_memory s channel_id m) st)
          channel_id).length ≤ working_memory_limit := by
  have hmain : get_working_memory
      (msgs.foldl (fun s m => add_to_working_memory s channel_id m) st) channel_id
      = msgs.drop (msgs.length - working_memory_limit) := by
    unfold get_working_memory
    rw [foldl_add_working_memory, h,
      foldl_trim_eq_drop msgs [] (by simp [working_memory_limit]),
      List.nil_append]
  refine ⟨hmain, ?_⟩
  rw [hmain, List.length_drop]
  omega

/-! ### Episode grouping (memory_manager.py `_group_into_conversations`) -/

/-- The loop of `_group_into_conversations`: `prev` is `messages[i-1]`,
`current` is `current_conv`, `convs` is `conversations`.  The source's final
`if current_conv:` guard is always true (the current chunk always holds at
least one turn), so the tail case appends unconditionally.  The float test
`(t2 - t1).total_seconds() / 60 > gap_minutes` is embedded as
`t2 - t1 > gap_minutes * 60` over integer seconds. -/
def groupGo (gap_minutes : Int) (prev : WorkingMemoryItem)
    (current : List WorkingMemoryItem) (convs : List (List WorkingMemoryItem)) :
    List WorkingMemoryItem → List (List WorkingMemoryItem)
  | [] => convs ++ [current]
  | m :: rest =>
    if m.timestamp - prev.timestamp > gap_minutes * 60 then
      groupGo gap_minutes m [m] (convs ++ [current]) rest
    else
      groupGo gap_minutes m (current ++ [m]) convs rest

/-- memory_manager.py `_group_into_conversations` (the source name carries a
leading underscore, which Lean reserves).  `gap_minutes` defaults to 30 at
the only call site. -/
def group_into_conversations (messages : List WorkingMemoryItem)
    (gap_minutes : Int) : List (List WorkingMemoryItem) :=
  match messages with
  | [] => []
  | m :: rest => groupGo gap_minutes m [m] [] rest

/-- All consecutive timestamp gaps inside one chunk are at most
`gap_minutes * 60` seconds (the complement of the split condition). -/
def chunkGapsOk (gap_minutes : Int) : List WorkingMemoryItem → Bool
  | a :: b :: rest =>
    decide (b.timestamp - a.timestamp ≤ gap_minutes * 60)
      && chunkGapsOk gap_minutes (b :: rest)
  | _ => true

/-- The gap between the last turn of one chunk and the first turn of the
next is strictly more than `gap_minutes * 60` seconds. -/
def bigGapBetween (gap_minutes : Int) (c d : List WorkingMemoryItem) : Bool :=
  match c.getLast?, d.head? with
  | some a, some b => decide (b.timestamp - a.timestamp > gap_minutes * 60)
  | _, _ => false

/-- Every pair of adjacent chunks in the partition is separated by a gap
strictly above the threshold. -/
def boundaryGapsBig (gap_minutes : Int) : List (List WorkingMemoryItem) → Bool
  | c :: d :: rest => bigGapBetween gap_minutes c d && boundaryGapsBig gap_minutes (d :: rest)
  | _ => true

/-- Whether appending a turn `m` after an (optional) last turn keeps the gap
at or below the threshold. -/
def gapOkAfter (gap_minutes : Int) (m : WorkingMemoryItem) :
    Option WorkingMemoryItem → Bool
  | none => true
  | some a => decide (m.timestamp - a.timestamp ≤ gap_minutes * 60)

/-- Whether appending a chunk `d` after an (optional) last chunk keeps the
boundary gap strictly above the threshold. -/
def boundaryOkAfter (gap_minutes : Int) (d : List WorkingMemoryItem) :
    Option (List WorkingMemoryItem) → Bool
  | none => true
  | some c => bigGapBetween gap_minutes c d

theorem chunkGapsOk_concat (gap_minutes : Int) (m : WorkingMemoryItem) :
    ∀ xs : List WorkingMemoryItem,
      chunkGapsOk gap_minutes (xs ++ [m])
        = (chunkGapsOk gap_minutes xs && gapOkAfter gap_minutes m xs.getLast?)
  | [] => by simp [chunkGapsOk, gapOkAfter]
  | [a] => by simp [chunkGapsOk, gapOkAfter]
  | a :: b :: rest => by
      have ih := chunkGapsOk_concat gap_minutes m (b :: rest)
      simp only [List.cons_append, chunkGapsOk, List.append_eq] at ih ⊢
      rw [ih, List.getLast?_cons_cons, Bool.and_assoc]

theorem boundaryGapsBig_concat (gap_minutes : Int) (d : List WorkingMemoryItem) :
    ∀ cs : List (List WorkingMemoryItem),
      boundaryGapsBig gap_minutes (cs ++ [d])
        = (boundaryGapsBig gap_minutes cs && boundaryOkAfter gap_minutes d cs.getLast?)
  | [] => by simp [boundaryGapsBig, boundaryOkAfter]
  | [c] => by simp [boundaryGapsBig, boundaryOkAfter]
  | c1 :: c2 :: rest => by
      have ih := boundaryGapsBig_concat gap_minutes d (c2 :: rest)
      simp only [List.cons_append, boundaryGapsBig, List.append_eq] at ih ⊢
      rw [ih, List.getLast?_cons_cons, Bool.and_assoc]

theorem bigGapBetween_append_right (gap_minutes : Int)
    (c d : List WorkingMemoryItem) (m : WorkingMemoryItem) (hd : d ≠ []) :
    bigGapBetween gap_minutes c (d ++ [m]) = bigGapBetween gap_minutes c d := by
  unfold bigGapBetween
  cases d with
  | nil => exact absurd rfl hd
  | cons x xs => rfl

/-- Invariant of the grouping loop: if the accumulated chunks and the current
chunk are well formed, so is the final partition, and its concatenation
restores the remaining input. -/
theorem groupGo_spec (gap_minutes : Int) :
    ∀ (rest : List WorkingMemoryItem) (prev : WorkingMemoryItem)
      (current : List WorkingMemoryItem) (convs : List (List WorkingMemoryItem)),
      current ≠ [] → current.getLast? = some prev →
      chunkGapsOk gap_minutes current = true →
      (∀ c ∈ convs, c ≠ [] ∧ chunkGapsOk gap_minutes c = true) →
      boundaryGapsBig gap_minutes (convs ++ [current]) = true →
      (groupGo gap_minutes prev current convs rest).flatten
          = convs.flatten ++ current ++ rest
        ∧ (∀ c ∈ groupGo gap_minutes prev current convs rest,
            c ≠ [] ∧ chunkGapsOk gap_minutes c = true)
        ∧ boundaryGapsBig gap_minutes (groupGo gap_minutes prev current convs rest)
            = true
  | [], prev, current, convs, hne, _, hok, hcs, hbd => by
      refine ⟨by simp [groupGo], ?_, by simpa [groupGo] using hbd⟩
      intro c hc
      rw [groupGo] at hc
      rcases List.mem_append.mp hc with h | h
      · exact hcs c h
      · rcases List.mem_singleton.mp h with rfl
        exact ⟨hne, hok⟩
  | m :: rest, prev, current, convs, hne, hlast, hok, hcs, hbd => by
      rw [groupGo]
      split
      · rename_i hgap
        have hbig : bigGapBetween gap_minutes current [m] = true := by
          unfold bigGapBetween
          rw [hlast]
          simpa using hgap
        have hbd2 : boundaryGapsBig gap_minutes ((convs ++ [current]) ++ [[m]]) = true := by
          rw [boundaryGapsBig_concat]
          have hlast2 : (convs ++ [current]).getLast? = some current := by
            simp [List.getLast?_append]
          rw [hlast2, hbd]
          simp [boundaryOkAfter, hbig]
        have hcs2 : ∀ c ∈ convs ++ [current],
            c ≠ [] ∧ chunkGapsOk gap_minutes c = true := by
          intro c hc
          rcases List.mem_append.mp hc with h | h
          · exact hcs c h
          · rcases List.mem_singleton.mp h with rfl
            exact ⟨hne, hok⟩
        have ih := groupGo_spec gap_minutes rest m [m] (convs ++ [current])
          (by simp) (by simp) (by simp [chunkGapsOk]) hcs2 hbd2
        refine ⟨?_, ih.2.1, ih.2.2⟩
        rw [ih.1]
        simp [List.append_assoc]
      · rename_i hgap
        have hok2 : chunkGapsOk gap_minutes (current ++ [m]) = true := by
          rw [chunkGapsOk_concat, hok, Bool.true_and, hlast]
          simp only [gapOkAfter, decide_eq_true_eq]
          omega
        have hbd2 : boundaryGapsBig gap_minutes (convs ++ [current ++ [m]]) = true := by
          rw [boundaryGapsBig_concat] at hbd ⊢
          cases hcv : convs.getLast? with
          | none => simpa [hcv, boundaryOkAfter] using hbd
          | some c0 =>
              rw [hcv] at hbd
              simp only [boundaryOkAfter] at hbd ⊢
              rw [bigGapBetween_append_right gap_minutes c0 current m hne]
              exact hbd
        have ih := groupGo_spec gap_minutes rest m (current ++ [m]) convs
          (by simp) (by simp) hok2 hcs hbd2
        refine ⟨?_, ih.2.1, ih.2.2⟩
        rw [ih.1]
        simp [List.append_assoc]

/-- C5 (amended): `group_into_conversations` partitions the buffer into the
maximal contiguous runs whose consecutive gaps are all at most
`gap_minutes * 60` seconds: the chunks concatenate back to the input, every
chunk is nonempty with all internal gaps at or below the threshold, and
every boundary between adjacent chunks is a gap strictly above the
threshold.  (A gap of exactly 30 minutes does not start a new episode.) -/
theorem group_into_conversations_partition (messages : List WorkingMemoryItem)
    (gap_minutes : Int) :
    (group_into_conversations messages gap_minutes).flatten = messages
    ∧ (∀ c ∈ group_into_conversations messages gap_minutes,
        c ≠ [] ∧ chunkGapsOk gap_minutes c = true)
    ∧ boundaryGapsBig gap_minutes (group_into_conversations messages gap_minutes)
        = true := by
  cases messages with
  | nil =>
      refine ⟨rfl, ?_, rfl⟩
      intro c hc
      cases hc
  | cons m rest =>
      have h := groupGo_spec gap_minutes rest m [m] []
        (by simp) (by simp) (by simp [chunkGapsOk]) (by intro c hc; cases hc)
        (by simp [boundaryGapsBig])
      exact ⟨by simpa [group_into_conversations] using h.1,
        by simpa [group_into_conversations] using h.2.1,
        by simpa [group_into_conversations] using h.2.2⟩

/-! ### Semantic fact store (memory_manager.py `add_semantic_fact`) -/

/-- The WHERE clause of the SELECT in `add_semantic_fact`:
`subject = ? AND fact_type = ? AND content = ?`. -/
def factKeyMatches (fact : SemanticFact) (row : FactRow) : Bool :=
  row.subject == fact.subject && row.fact_type == fact.fact_type
    && row.content == fact.content

/-- The UPDATE branch: set `confidence` and `last_updated` on the row whose
id was returned by the SELECT (the first matching row in rowid order). -/
def updateFirstMatch (fact : SemanticFact) (now : Int) :
    List FactRow → List FactRow
  | [] => []
  | row :: rest =>
    if factKeyMatches fact row then
      { row with confidence := fact.confidence, last_updated := now } :: rest
    else
      row :: updateFirstMatch fact now rest

/-- memory_manager.py `add_semantic_fact`: SELECT by the
(subject, fact_type, content) key; UPDATE confidence / last_updated if a row
exists, otherwise INSERT a fresh row (`CURRENT_TIMESTAMP` is `now`). -/
def add_semantic_fact (db : List FactRow) (fact : SemanticFact) (now : Int) :
    List FactRow :=
  if db.any (factKeyMatches fact) then
    updateFirstMatch fact now db
  else
    db ++ [{ fact_type := fact.fact_type, subject := fact.subject,
             content := fact.content, confidence := fact.confidence,
             source_memory_ids := fact.source_memory_ids,
             created_at := now, last_updated := now }]

/-- Spec-side key predicate on stored rows, independent of any
`SemanticFact` value: the row carries the given (subject, type, content). -/
def rowHasKey (subject fact_type content : String) (row : FactRow) : Bool :=
  row.subject == subject && row.fact_type == fact_type && row.content == content

theorem factKeyMatches_eq_rowHasKey (fact : SemanticFact) (row : FactRow) :
    factKeyMatches fact row = rowHasKey fact.subject fact.fact_type fact.content row :=
  rfl

theorem updateFirstMatch_countP (fact : SemanticFact) (now : Int)
    (subject fact_type content : String)
    (hs : fact.subject = subject) (ht : fact.fact_type = fact_type)
    (hc : fact.content = content) :
    ∀ db : List FactRow,
      (updateFirstMatch fact now db).countP (rowHasKey subject fact_type content)
        = db.countP (rowHasKey subject fact_type content)
  | [] => rfl
  | row :: rest => by
      rw [updateFirstMatch]
      split
      · rename_i hm
        have hkey : rowHasKey subject fact_type content row = true := by
          subst hs ht hc
          rw [← factKeyMatches_eq_rowHasKey]
          exact hm
        have hkey2 : rowHasKey subject fact_type content
            { row with confidence := fact.confidence, last_updated := now } = true := by
          simpa [rowHasKey] using by simpa [rowHasKey] using hkey
        rw [List.countP_cons, List.countP_cons, hkey, hkey2]
      · rw [List.countP_cons, List.countP_cons,
          updateFirstMatch_countP fact now subject fact_type content hs ht hc rest]

/-- If at most one row of `db` carries the fact's key, then after
`updateFirstMatch` every row carrying the key holds the newly written
confidence and timestamp. -/
theorem updateFirstMatch_latest (fact : SemanticFact) (now : Int)
    (subject fact_type content : String)
    (hs : fact.subject = subject) (ht : fact.fact_type = fact_type)
    (hc : fact.content = content) :
    ∀ db : List FactRow,
      db.countP (rowHasKey subject fact_type content) ≤ 1 →
      ∀ row ∈ updateFirstMatch fact now db,
        rowHasKey subject fact_type content row = true →
        row.confidence = fact.confidence ∧ row.last_updated = now
  | [], _, row, hrow, _ => by cases hrow
  | r :: rest, hinv, row, hrow, hkey => by
      rw [updateFirstMatch] at hrow
      by_cases hm : factKeyMatches fact r = true
      · rw [if_pos hm] at hrow
        have hrkey : rowHasKey subject fact_type content r = true := by
          subst hs ht hc
          rw [← factKeyMatches_eq_rowHasKey]
          exact hm
        have hrest : rest.countP (rowHasKey subject fact_type content) = 0 := by
          rw [List.countP_cons, hrkey] at hinv
          simp only [if_true] at hinv
          omega
        rcases List.mem_cons.mp hrow with h1 | h1
        · subst h1
          exact ⟨rfl, rfl⟩
        · exfalso
          have : 0 < rest.countP (rowHasKey subject fact_type content) :=
            List.countP_pos_iff.mpr ⟨row, h1, hkey⟩
          omega
      · rw [if_neg hm] at hrow
        rcases List.mem_cons.mp hrow with h1 | h1
        · exfalso
          apply hm
          subst h1
          subst hs ht hc
          rw [factKeyMatches_eq_rowHasKey]
          exact hkey
        · have hinv2 : rest.countP (rowHasKey subject fact_type content) ≤ 1 := by
            rw [List.countP_cons] at hinv
            omega
          exact updateFirstMatch_latest fact now subject fact_type content hs ht hc
            rest hinv2 row h1 hkey

/-- One upsert of a fact carrying the given key leaves exactly one row with
that key, provided at most one was there before. -/
theorem add_semantic_fact_countP (db : List FactRow) (fact : SemanticFact) (now : Int)
    (subject fact_type content : String)
    (hs : fact.subject = subject) (ht : fact.fact_type = fact_type)
    (hc : fact.content = content)
    (hinv : db.countP (rowHasKey subject fact_type content) ≤ 1) :
    (add_semantic_fact db fact now).countP (rowHasKey subject fact_type content) = 1 := by
  unfold add_semantic_fact
  split
  · rename_i hany
    rw [updateFirstMatch_countP fact now subject fact_type content hs ht hc]
    rcases List.any_eq_true.mp hany with ⟨row, hrow, hkey⟩
    have : 1 ≤ db.countP (rowHasKey subject fact_type content) := by
      refine List.countP_pos_iff.mpr ⟨row, hrow, ?_⟩
      subst hs ht hc
      rw [← factKeyMatches_eq_rowHasKey]
      exact hkey
    omega
  · rename_i hany
    have hzero : db.countP (rowHasKey subject fact_type content) = 0 := by
      by_contra hnz
      have hpos : 0 < db.countP (rowHasKey subject fact_type content) :=
        Nat.pos_of_ne_zero hnz
      rcases List.countP_pos_iff.mp hpos with ⟨row, hrow, hkey⟩
      exact hany (List.any_eq_true.mpr ⟨row, hrow, by
        subst hs ht hc
        rw [factKeyMatches_eq_rowHasKey]
        exact hkey⟩)
    rw [List.countP_append, hzero, List.countP_cons]
    subst hs ht hc
    simp [rowHasKey, List.countP_nil]

/-- After one upsert, every row carrying the key holds the written
confidence and timestamp, provided at most one row carried the key before. -/
theorem add_semantic_fact_latest (db : List FactRow) (fact : SemanticFact) (now : Int)
    (subject fact_type content : String)
    (hs : fact.subject = subject) (ht : fact.fact_type = fact_type)
    (hc : fact.content = content)
    (hinv : db.countP (rowHasKey subject fact_type content) ≤ 1) :
    ∀ row ∈ add_semantic_fact db fact now,
      rowHasKey subject fact_type content row = true →
      row.confidence = fact.confidence ∧ row.last_updated = now := by
  intro row hrow hkey
  unfold add_semantic_fact at hrow
  revert hrow
  split
  · rename_i hany
    intro hrow
    exact updateFirstMatch_latest fact now subject fact_type content hs ht hc
      db hinv row hrow hkey
  · rename_i hany
    intro hrow
    rcases List.mem_append.mp hrow with h1 | h1
    · exfalso
      exact hany (List.any_eq_true.mpr ⟨row, h1, by
        subst hs ht hc
        rw [factKeyMatches_eq_rowHasKey]
        exact hkey⟩)
    · rcases List.mem_singleton.mp h1 with rfl
      exact ⟨rfl, rfl⟩

/-! ### Episodic memory (memory_manager.py `add_episodic_memory`,
`search_episodic_memory`) -/

/-- Python dict `update`: keys of `upd` override keys of `base`, new keys are
appended. -/
def dictUpdate (base upd : List (String × MetaValue)) :
    List (String × MetaValue) :=
  base.filter (fun p => !(upd.any (fun q => q.1 == p.1))) ++ upd

/-- The `try` block of `add_episodic_memory`: embed the text, write to the
external index, then read `ids[0]` (which raises `IndexError` if the store
returned no ids — after the entry was already written).  Errors carry the
state as mutated so far; the ISO encoding of the timestamp is abstracted as
decimal encoding (both are injective). -/
def add_episodic_memory_body (st : PipelineState) (vs : VectorStore)
    (memory : EpisodicMemoryItem) :
    Except (PipelineState × String) (PipelineState × String) :=
  let text := "User " ++ memory.user_name ++ ": " ++ memory.user_message
    ++ "\nLamy: " ++ memory.bot_response
  let metadata : List (String × MetaValue) :=
    [("user_id", MetaValue.str memory.user_id),
     ("user_name", MetaValue.str memory.user_name),
     ("channel_id", MetaValue.str memory.channel_id),
     ("timestamp", MetaValue.str (toString memory.timestamp)),
     ("user_message", MetaValue.str memory.user_message),
     ("bot_response", MetaValue.str memory.bot_response),
     ("relevance_score", MetaValue.num memory.relevance_score)]
  let metadata2 := dictUpdate metadata memory.metadata
  match vs.add_texts text metadata2 with
  | Except.error e => Except.error (st, e)
  | Except.ok ids =>
    match ids with
    | [] => Except.error
        ({ st with archive := st.archive ++ [memory] }, "list index out of range")
    | id0 :: _ =>
      Except.ok
        ({ st with archive := st.archive ++ [{ memory with embedding_id := some id0 }] },
         id0)

/-- memory_manager.py `add_episodic_memory`: returns `""` when the vector
store is not initialized; otherwise runs the body under a `try/except` that
logs and returns `""` on any error. -/
def add_episodic_memory (st : PipelineState) (memory : EpisodicMemoryItem) :
    PipelineState × String :=
  match st.vector_store with
  | none => (st, "")
  | some vs =>
    match add_episodic_memory_body st vs memory with
    | Except.ok r => r
    | Except.error (st2, _) => (st2, "")

/-- The `try` block of `search_episodic_memory`: build the filter, run the
similarity search (with the generic fallback query when no — or an empty —
query text is given, mirroring Python truthiness), and convert the results
back to `EpisodicMemoryItem`s with `metadata.get` defaults.  `now` stands
for `datetime.utcnow()`, the fallback timestamp. -/
def search_episodic_memory_body (vs : VectorStore) (query : MemorySearchQuery)
    (now : Int) : Except String (List EpisodicMemoryItem) :=
  let filter_dict : List (String × String) :=
    (match query.user_id with
     | some uid => [("user_id", uid)]
     | none => []) ++
    (match query.channel_id with
     | some cid => [("channel_id", cid)]
     | none => [])
  let filter_arg := if filter_dict.isEmpty then none else some filter_dict
  let query_text :=
    match query.query_text with
    | some t => if t == "" then "recent conversation" else t
    | none => "recent conversation"
  match vs.similarity_search_with_score query_text query.limit filter_arg with
  | Except.error e => Except.error e
  | Except.ok results =>
    Except.ok (results.map (fun dr =>
      { user_message := dr.1.user_message.getD ""
        bot_response := dr.1.bot_response.getD ""
        user_id := dr.1.user_id.getD ""
        user_name := dr.1.user_name.getD ""
        channel_id := dr.1.channel_id.getD ""
        timestamp := dr.1.timestamp.getD now
        relevance_score := dr.2
        metadata := dr.1.extra
        embedding_id := none }))

/-- memory_manager.py `search_episodic_memory`: `[]` when the vector store is
not initialized; otherwise the body under a `try/except` that logs and
returns `[]`.  The `Except` codomain records that no exception escapes:
every path yields `Except.ok`. -/
def search_episodic_memory (vector_store : Option VectorStore)
    (query : MemorySearchQuery) (now : Int) :
    Except String (List EpisodicMemoryItem) :=
  match vector_store with
  | none => Except.ok []
  | some vs =>
    match search_episodic_memory_body vs query now with
    | Except.ok memories => Except.ok memories
    | Except.error _ => Except.ok []

/-! ### Memory consolidation (memory_manager.py `consolidate_memories`) -/

/-- One JSON object of the list returned by llm_interface.py `extract_facts`;
a missing key is `none` (read back with `.get(key, default)`). -/
structure FactData where
  fact_type : Option String
  subject : Option String
  content : Option String
  confidence : Option Rat
deriving DecidableEq

/-- The `llm_interface` argument of `consolidate_memories` (typed `Any` in
the source), as the pipeline consumes it: two possibly-raising calls.  `now`
stands for `CURRENT_TIMESTAMP` at the SQLite writes of the run. -/
structure ConsolidationDeps where
  summarize_conversation : List WorkingMemoryItem → Except String String
  extract_facts : String → Except String (List FactData)
  now : Int

/-- The stride-2 pair scan
`for i in range(0, len(conv) - 1, 2): if not conv[i].is_bot_response and conv[i+1].is_bot_response: ...`:
the turns at offsets (0,1), (2,3), … are examined, and a pair is kept when
the first is participant-authored and the second agent-authored.  (The
source's `i + 1 < len(conv)` test is always true under the `range` bound.) -/
def processPairs : List WorkingMemoryItem →
    List (WorkingMemoryItem × WorkingMemoryItem)
  | a :: b :: rest =>
    (if !a.is_bot_response && b.is_bot_response then [(a, b)] else [])
      ++ processPairs rest
  | _ => []

/-- The `EpisodicMemoryItem` built for one kept pair inside
`consolidate_memories` (relevance_score and embedding_id at their model
defaults). -/
def mkPairMemory (channel_id : Channel) (summary : String)
    (p : WorkingMemoryItem × WorkingMemoryItem) : EpisodicMemoryItem :=
  { user_message := p.1.content
    bot_response := p.2.content
    user_id := p.1.user_id
    user_name := p.1.user_name
    channel_id := channel_id
    timestamp := p.1.timestamp
    relevance_score := 1
    metadata := [("summary", MetaValue.str summary)]
    embedding_id := none }

/-- The archival loop of one episode: store each kept pair, incrementing
`episodic_memories_created` only when the returned id is non-empty
(`if memory_id:`). -/
def archivePairs (channel_id : Channel) (summary : String) :
    PipelineState → Nat →
      List (WorkingMemoryItem × WorkingMemoryItem) → PipelineState × Nat
  | st, n, [] => (st, n)
  | st, n, p :: rest =>
    let r := add_episodic_memory st (mkPairMemory channel_id summary p)
    archivePairs channel_id summary r.1
      (if r.2 ≠ "" then n + 1 else n) rest

/-- The coercion of one extracted payload into a `SemanticFact`
(`fact_data.get(key, default)` for each field). -/
def coerceFactData (fd : FactData) : SemanticFact :=
  { fact_type := fd.fact_type.getD "general"
    subject := fd.subject.getD "unknown"
    content := fd.content.getD ""
    confidence := fd.confidence.getD 0.8
    source_memory_ids := [] }

/-- The fact-storage loop of one episode: upsert each coerced payload and
count it in `semantic_facts_extracted`. -/
def storeFacts (now : Int) : PipelineState → Nat → List FactData →
    PipelineState × Nat
  | st, n, [] => (st, n)
  | st, n, fd :: rest =>
    storeFacts now
      { st with facts := add_semantic_fact st.facts (coerceFactData fd) now }
      (n + 1) rest

/-- The episode loop of `consolidate_memories`.  The two LLM calls may
raise; an error aborts the loop, carrying the state and the counters as
mutated so far (the surrounding `try/except` is in `consolidate_memories`).
`add_episodic_memory` catches its own errors and never raises. -/
def processConversations (channel_id : Channel) (deps : ConsolidationDeps) :
    PipelineState → Nat → Nat → List (List WorkingMemoryItem) →
      Except (PipelineState × Nat × Nat × String) (PipelineState × Nat × Nat)
  | st, ep, fc, [] => Except.ok (st, ep, fc)
  | st, ep, fc, conv :: rest =>
    match deps.summarize_conversation conv with
    | Except.error e => Except.error (st, ep, fc, e)
    | Except.ok summary =>
      let ar := archivePairs channel_id summary st ep (processPairs conv)
      match deps.extract_facts summary with
      | Except.error e => Except.error (ar.1, ar.2, fc, e)
      | Except.ok facts_data =>
        let sf := storeFacts deps.now ar.1 fc facts_data
        processConversations channel_id deps sf.1 ar.2 sf.2 rest

/-- memory_manager.py `consolidate_memories`: snapshot the channel's buffer,
group it into episodes, process every episode (summary → pair archival →
fact extraction), clear the buffer only after the whole loop succeeded, and
turn an escaped exception into an entry of `result.errors` (the result keeps
the counters accumulated before the failure, as the Python result object is
mutated in place). -/
def consolidate_memories (st : PipelineState) (channel_id : Channel)
    (deps : ConsolidationDeps) : PipelineState × MemoryConsolidationResult :=
  let working_memories := get_working_memory st channel_id
  if working_memories.isEmpty then
    (st, { emptyConsolidationResult with summary := "No memories to consolidate" })
  else
    let processed := working_memories.length
    let conversations := group_into_conversations working_memories 30
    match processConversations channel_id deps st 0 0 conversations with
    | Except.ok (st1, ep, fc) =>
      (clear_working_memory st1 channel_id,
       { processed_messages := processed
         episodic_memories_created := ep
         semantic_facts_extracted := fc
         summary := "Successfully consolidated " ++ toString processed
           ++ " messages into " ++ toString ep ++ " episodic memories and "
           ++ toString fc ++ " semantic facts"
         errors := [] })
    | Except.error (st1, ep, fc, e) =>
      (st1,
       { processed_messages := processed
         episodic_memories_created := ep
         semantic_facts_extracted := fc
         summary := "Consolidation failed with error: " ++ e
         errors := [e] })

/-! ### What the pipeline steps leave untouched -/

theorem add_episodic_memory_preserves (st : PipelineState)
    (memory : EpisodicMemoryItem) :
    (add_episodic_memory st memory).1.working_memory = st.working_memory
    ∧ (add_episodic_memory st memory).1.vector_store = st.vector_store
    ∧ (add_episodic_memory st memory).1.facts = st.facts := by
  unfold add_episodic_memory
  split
  · exact ⟨rfl, rfl, rfl⟩
  · split
    · rename_i r hr
      simp only [add_episodic_memory_body] at hr
      split at hr
      · cases hr
      · split at hr
        · cases hr
        · cases hr
          exact ⟨rfl, rfl, rfl⟩
    · rename_i st2 e hr
      simp only [add_episodic_memory_body] at hr
      split at hr
      · cases hr
        exact ⟨rfl, rfl, rfl⟩
      · split at hr
        · cases hr
          exact ⟨rfl, rfl, rfl⟩
        · cases hr

theorem archivePairs_preserves (channel_id : Channel) (summary : String) :
    ∀ (pairs : List (WorkingMemoryItem × WorkingMemoryItem))
      (st : PipelineState) (n : Nat),
      (archivePairs channel_id summary st n pairs).1.working_memory
          = st.working_memory
      ∧ (archivePairs channel_id summary st n pairs).1.vector_store
          = st.vector_store
      ∧ (archivePairs channel_id summary st n pairs).1.facts = st.facts
  | [], st, n => ⟨rfl, rfl, rfl⟩
  | p :: rest, st, n => by
      rw [archivePairs]
      have h1 := add_episodic_memory_preserves st (mkPairMemory channel_id summary p)
      have ih := archivePairs_preserves channel_id summary rest
        (add_episodic_memory st (mkPairMemory channel_id summary p)).1
        (if (add_episodic_memory st (mkPairMemory channel_id summary p)).2 ≠ ""
         then n + 1 else n)
      exact ⟨ih.1.trans h1.1, ih.2.1.trans h1.2.1, ih.2.2.trans h1.2.2⟩

theorem storeFacts_preserves (now : Int) :
    ∀ (fds : List FactData) (st : PipelineState) (n : Nat),
      (storeFacts now st n fds).1.working_memory = st.working_memory
      ∧ (storeFacts now st n fds).1.vector_store = st.vector_store
      ∧ (storeFacts now st n fds).1.archive = st.archive
  | [], st, n => ⟨rfl, rfl, rfl⟩
  | fd :: rest, st, n => by
      rw [storeFacts]
      exact storeFacts_preserves now rest _ (n + 1)

/-- The state carried by the episode loop's outcome, whether it succeeded or
aborted with an exception. -/
def pcState :
    Except (PipelineState × Nat × Nat × String) (PipelineState × Nat × Nat) →
      PipelineState
  | Except.ok r => r.1
  | Except.error r => r.1

/-- The episode loop never touches the short-term buffer. -/
theorem processConversations_working_memory (channel_id : Channel)
    (deps : ConsolidationDeps) :
    ∀ (convs : List (List WorkingMemoryItem)) (st : PipelineState) (ep fc : Nat),
      (pcState (processConversations channel_id deps st ep fc convs)).working_memory
        = st.working_memory
  | [], st, ep, fc => rfl
  | conv :: rest, st, ep, fc => by
      rw [processConversations]
      dsimp only
      split
      · rfl
      · rename_i summary hsum
        split
        · rename_i e hext
          exact (archivePairs_preserves channel_id summary
            (processPairs conv) st ep).1
        · rename_i facts_data hext
          have har := archivePairs_preserves channel_id summary
            (processPairs conv) st ep
          have hsf := storeFacts_preserves deps.now facts_data
            (archivePairs channel_id summary st ep (processPairs conv)).1 fc
          have ih := processConversations_working_memory channel_id deps rest
            (storeFacts deps.now
              (archivePairs channel_id summary st ep (processPairs conv)).1
              fc facts_data).1
            (archivePairs channel_id summary st ep (processPairs conv)).2
            (storeFacts deps.now
              (archivePairs channel_id summary st ep (processPairs conv)).1
              fc facts_data).2
          exact ih.trans (hsf.1.trans har.1)

/-! ### An always-succeeding archival backend, and what one episode does -/

/-- A vector store whose writes always succeed and return the id "vec-id",
and whose searches return no hits. -/
def okStore : VectorStore :=
  { add_texts := fun _ _ => Except.ok ["vec-id"]
    similarity_search_with_score := fun _ _ _ => Except.ok [] }

theorem add_episodic_memory_okStore (st : PipelineState)
    (memory : EpisodicMemoryItem) (hvs : st.vector_store = some okStore) :
    add_episodic_memory st memory
      = ({ st with archive := st.archive ++ [{ memory with embedding_id := some "vec-id" }] },
         "vec-id") := by
  obtain ⟨wm, vs0, fs, ar⟩ := st
  dsimp only at hvs
  subst hvs
  rfl

/-- Spec-side characterization of the stride-2 scan: the pair of turns at
offsets (2k, 2k+1), whenever the first is participant-authored and the
second agent-authored. -/
def evenPairAt (conv : List WorkingMemoryItem) (k : Nat) :
    Option (WorkingMemoryItem × WorkingMemoryItem) :=
  match conv[2 * k]?, conv[2 * k + 1]? with
  | some a, some b =>
      if !a.is_bot_response && b.is_bot_response then some (a, b) else none
  | _, _ => none

/-- All participant→agent pairs sitting at even offsets of the episode. -/
def pairsAtEvenIdx (conv : List WorkingMemoryItem) :
    List (WorkingMemoryItem × WorkingMemoryItem) :=
  (List.range (conv.length / 2)).filterMap (evenPairAt conv)

theorem evenPairAt_cons_cons (a b : WorkingMemoryItem)
    (rest : List WorkingMemoryItem) (k : Nat) :
    evenPairAt (a :: b :: rest) (k + 1) = evenPairAt rest k := by
  unfold evenPairAt
  have h1 : 2 * (k + 1) = (2 * k) + 1 + 1 := by omega
  rw [h1]
  simp only [List.getElem?_cons_succ]

/-- The loop of `consolidate_memories` examines exactly the pairs at even
offsets. -/
theorem processPairs_eq_pairsAtEvenIdx :
    ∀ conv : List WorkingMemoryItem, processPairs conv = pairsAtEvenIdx conv
  | [] => by simp [processPairs, pairsAtEvenIdx]
  | [a] => by simp [processPairs, pairsAtEvenIdx]
  | a :: b :: rest => by
      rw [processPairs, processPairs_eq_pairsAtEvenIdx rest]
      unfold pairsAtEvenIdx
      have hlen : (a :: b :: rest).length / 2 = rest.length / 2 + 1 := by
        simp only [List.length_cons]
        omega
      rw [hlen, List.range_succ_eq_map, List.filterMap_cons, List.filterMap_map]
      have hfun : evenPairAt (a :: b :: rest) ∘ Nat.succ = evenPairAt rest :=
        funext fun k => evenPairAt_cons_cons a b rest k
      rw [hfun]
      have hzero : evenPairAt (a :: b :: rest) 0
          = (if !a.is_bot_response && b.is_bot_response then some (a, b) else none) := by
        simp [evenPairAt]
      rw [hzero]
      split
      · rfl
      · rfl

/-- With the always-succeeding backend, the archival loop stores every kept
pair (with the returned id recorded) and counts each one. -/
theorem archivePairs_okStore (channel_id : Channel) (summary : String) :
    ∀ (pairs : List (WorkingMemoryItem × WorkingMemoryItem))
      (st : PipelineState) (n : Nat), st.vector_store = some okStore →
      archivePairs channel_id summary st n pairs
        = ({ st with archive := st.archive
              ++ pairs.map (fun p =>
                  { mkPairMemory channel_id summary p with embedding_id := some "vec-id" }) },
           n + pairs.length)
  | [], st, n, _ => by simp [archivePairs]
  | p :: rest, st, n, hvs => by
      rw [archivePairs, add_episodic_memory_okStore st _ hvs]
      dsimp only
      rw [if_pos (by decide : ("vec-id" : String) ≠ "")]
      rw [archivePairs_okStore channel_id summary rest
        { st with archive := st.archive
            ++ [{ mkPairMemory channel_id summary p with embedding_id := some "vec-id" }] }
        (n + 1) hvs]
      congr 1
      · simp [List.append_assoc]
      · simp only [List.length_cons]
        omega

/-- The fact-storage loop upserts every coerced payload and counts each. -/
theorem storeFacts_spec (now : Int) :
    ∀ (fds : List FactData) (st : PipelineState) (n : Nat),
      storeFacts now st n fds
        = ({ st with facts := fds.foldl
                        (fun db fd => add_semantic_fact db (coerceFactData fd) now)
                        st.facts },
           n + fds.length)
  | [], st, n => by simp [storeFacts]
  | fd :: rest, st, n => by
      rw [storeFacts, storeFacts_spec now rest _ (n + 1)]
      simp only [List.foldl_cons, List.length_cons]
      congr 1
      omega
/-- What one single-episode consolidation run does, given an
always-succeeding backend and successful LLM calls: the buffer is cleared,
every even-offset participant→agent pair is archived with the episode
summary as metadata, every extracted payload is coerced and upserted, and
the counters report exactly those events. -/
theorem consolidate_single_episode (st : PipelineState) (channel_id : Channel)
    (deps : ConsolidationDeps) (buf : List WorkingMemoryItem)
    (summary : String) (fds : List FactData)
    (hbuf : st.working_memory channel_id = buf) (hne : buf ≠ [])
    (hsingle : group_into_conversations buf 30 = [buf])
    (hvs : st.vector_store = some okStore)
    (hsum : deps.summarize_conversation buf = Except.ok summary)
    (hext : deps.extract_facts summary = Except.ok fds) :
    (consolidate_memories st channel_id deps).2.processed_messages = buf.length
    ∧ (consolidate_memories st channel_id deps).2.episodic_memories_created
        = (pairsAtEvenIdx buf).length
    ∧ (consolidate_memories st channel_id deps).2.semantic_facts_extracted
        = fds.length
    ∧ (consolidate_memories st channel_id deps).2.errors = []
    ∧ (consolidate_memories st channel_id deps).1.archive
        = st.archive ++ (pairsAtEvenIdx buf).map (fun p =>
            { mkPairMemory channel_id summary p with embedding_id := some "vec-id" })
    ∧ (consolidate_memories st channel_id deps).1.facts
        = fds.foldl (fun db fd => add_semantic_fact db (coerceFactData fd) deps.now)
            st.facts
    ∧ (consolidate_memories st channel_id deps).1.working_memory channel_id = [] := by
  have hne2 : ¬(buf.isEmpty = true) := by
    cases buf with
    | nil => exact absurd rfl hne
    | cons x xs => simp [List.isEmpty]
  have har := archivePairs_okStore channel_id summary (processPairs buf) st 0 hvs
  have hsf := storeFacts_spec deps.now fds
    (archivePairs channel_id summary st 0 (processPairs buf)).1 0
  have hrun : processConversations channel_id deps st 0 0 [buf]
      = Except.ok
          ((storeFacts deps.now
             (archivePairs channel_id summary st 0 (processPairs buf)).1 0 fds).1,
           (archivePairs channel_id summary st 0 (processPairs buf)).2,
           (storeFacts deps.now
             (archivePairs channel_id summary st 0 (processPairs buf)).1 0 fds).2) := by
    rw [processConversations, hsum]
    dsimp only
    rw [hext]
    dsimp only
    rw [processConversations]
  unfold consolidate_memories get_working_memory
  rw [hbuf]
  dsimp only
  rw [if_neg hne2, hsingle, hrun]
  dsimp only
  rw [hsf]
  dsimp only
  rw [har]
  dsimp only
  refine ⟨rfl, ?_, ?_, rfl, ?_, rfl, ?_⟩
  · rw [processPairs_eq_pairsAtEvenIdx]
    omega
  · omega
  · rw [processPairs_eq_pairsAtEvenIdx]
    simp [clear_working_memory]
  · simp [clear_working_memory]

/-! ### Concrete fixtures -/

/-- A state whose channel "ch" holds the given buffer and whose other
channels are empty. -/
def stateWithBuffer (buf : List WorkingMemoryItem) (vs : Option VectorStore)
    (facts : List FactRow) : PipelineState :=
  { working_memory := fun c => if c = "ch" then buf else []
    vector_store := vs
    facts := facts
    archive := [] }

def mkTurn (name text : String) (t : Int) (bot : Bool) : WorkingMemoryItem :=
  { user_id := "id-" ++ name, user_name := name, content := text,
    timestamp := t, channel_id := "ch", is_bot_response := bot }

def tAliceHi : WorkingMemoryItem := mkTurn "alice" "hi" 0 false

def tAgentHi : WorkingMemoryItem := mkTurn "agent" "hi alice" 10 true

def tAliceBye : WorkingMemoryItem := mkTurn "alice" "bye" 20 false

def tAgentBye : WorkingMemoryItem := mkTurn "agent" "bye" 30 true

/-- The spec's end-to-end scenario A buffer: four turns within one minute. -/
def scenarioA : List WorkingMemoryItem := [tAliceHi, tAgentHi, tAliceBye, tAgentBye]

/-- LLM oracles that always succeed, with no facts extracted. -/
def okDeps : ConsolidationDeps :=
  { summarize_conversation := fun _ => Except.ok "episode summary"
    extract_facts := fun _ => Except.ok []
    now := 0 }

def stScenarioA : PipelineState := stateWithBuffer scenarioA (some okStore) []

/-! ### Claim C1 -/

def tAgentFirst : WorkingMemoryItem := mkTurn "agent" "welcome" 0 true

def tAliceMid : WorkingMemoryItem := mkTurn "alice" "hello" 10 false

def tAgentLast : WorkingMemoryItem := mkTurn "agent" "hello alice" 20 true

/-- A single-episode buffer whose only participant→agent adjacency sits at
offsets (1,2). -/
def oddPairBuffer : List WorkingMemoryItem := [tAgentFirst, tAliceMid, tAgentLast]

def stOddPair : PipelineState := stateWithBuffer oddPairBuffer (some okStore) []

/-- C1 counterexample: the buffer [agent, alice, agent] (one episode, all
oracles succeeding, archival backend accepting every store) contains an
adjacent participant-then-agent pair at offsets (1,2), yet the run creates
no ArchiveEntry at all — the loop steps through the episode two turns at a
time and only ever examines the pairs at even offsets, so the claim that
every adjacent participant→agent pair produces exactly one ArchiveEntry is
false. -/
theorem consolidate_adjacent_pair_counterexample :
    tAliceMid.is_bot_response = false
    ∧ tAgentLast.is_bot_response = true
    ∧ (group_into_conversations oddPairBuffer 30).length = 1
    ∧ (consolidate_memories stOddPair "ch" okDeps).2.processed_messages = 3
    ∧ (consolidate_memories stOddPair "ch" okDeps).2.episodic_memories_created = 0
    ∧ (consolidate_memories stOddPair "ch" okDeps).1.archive = [] := by
  decide

/-- C1 (amended): within a single-episode buffer, consolidation archives
exactly the participant→agent pairs at even offsets (2k, 2k+1) — the loop
walks the episode two turns at a time — one ArchiveEntry per such pair,
each carrying the episode summary as metadata; all other turns produce no
entry but still count toward processed_messages.  (For scenario A this
gives one episode, two entries, processed_messages = 4: see the witness.) -/
theorem consolidate_even_pairs (st : PipelineState) (channel_id : Channel)
    (deps : ConsolidationDeps) (buf : List WorkingMemoryItem) (summary : String)
    (hbuf : st.working_memory channel_id = buf) (hne : buf ≠ [])
    (hsingle : group_into_conversations buf 30 = [buf])
    (hvs : st.vector_store = some okStore)
    (hsum : deps.summarize_conversation buf = Except.ok summary)
    (hext : deps.extract_facts summary = Except.ok []) :
    (consolidate_memories st channel_id deps).2.processed_messages = buf.length
    ∧ (consolidate_memories st channel_id deps).2.episodic_memories_created
        = (pairsAtEvenIdx buf).length
    ∧ (consolidate_memories st channel_id deps).1.archive
        = st.archive ++ (pairsAtEvenIdx buf).map (fun p =>
            { mkPairMemory channel_id summary p with embedding_id := some "vec-id" })
    ∧ ∀ m ∈ ((consolidate_memories st channel_id deps).1.archive).drop
        st.archive.length,
        m.metadata = [("summary", MetaValue.str summary)] := by
  have h := consolidate_single_episode st channel_id deps buf summary []
    hbuf hne hsingle hvs hsum hext
  refine ⟨h.1, h.2.1, h.2.2.2.2.1, ?_⟩
  intro m hm
  rw [h.2.2.2.2.1, List.drop_left] at hm
  rcases List.mem_map.mp hm with ⟨p, _, rfl⟩
  rfl

/-- C1 witness: scenario A — one episode, two ArchiveEntries, four processed
messages. -/
theorem consolidate_even_pairs_witness :
    (consolidate_memories stScenarioA "ch" okDeps).2.processed_messages = 4
    ∧ (consolidate_memories stScenarioA "ch" okDeps).2.episodic_memories_created = 2
    ∧ (group_into_conversations scenarioA 30).length = 1 := by
  have h := consolidate_even_pairs stScenarioA "ch" okDeps scenarioA "episode summary"
    rfl (by decide) (by decide) rfl rfl rfl
  refine ⟨by rw [h.1]; decide, by rw [h.2.1]; decide, by decide⟩

/-! ### Claim C2 -/

def tPing : WorkingMemoryItem := mkTurn "alice" "ping" 0 false

def tAliceLater : WorkingMemoryItem := mkTurn "alice" "are you there" 3600 false

def tAgentLater : WorkingMemoryItem := mkTurn "agent" "yes" 3610 true

/-- A buffer that splits into two episodes (one hour apart); the second
episode holds an archivable participant→agent pair at offsets (0,1). -/
def twoEpisodeBuffer : List WorkingMemoryItem := [tPing, tAliceLater, tAgentLater]

def stTwoEpisodes : PipelineState := stateWithBuffer twoEpisodeBuffer (some okStore) []

/-- LLM oracles whose summarization raises exactly on the episode starting
at timestamp 0, and succeeds elsewhere. -/
def failFirstDeps : ConsolidationDeps :=
  { summarize_conversation := fun conv =>
      match conv.head? with
      | some m => if m.timestamp == 0 then Except.error "boom" else Except.ok "s"
      | none => Except.ok "s"
    extract_facts := fun _ => Except.ok []
    now := 0 }

/-- C2 counterexample: two episodes, summarization of the first raises.  The
error is recorded and nothing is thrown, but the second episode is NOT
processed: its participant→agent pair (with an always-accepting backend)
yields no ArchiveEntry, so "the remaining episodes are still processed" is
false — the single try/except wraps the whole episode loop and the first
failure aborts the run. -/
theorem consolidate_error_aborts_counterexample :
    (group_into_conversations twoEpisodeBuffer 30).length = 2
    ∧ tAliceLater.is_bot_response = false
    ∧ tAgentLater.is_bot_response = true
    ∧ (consolidate_memories stTwoEpisodes "ch" failFirstDeps).2.errors = ["boom"]
    ∧ (consolidate_memories stTwoEpisodes "ch" failFirstDeps).2.episodic_memories_created
        = 0
    ∧ (consolidate_memories stTwoEpisodes "ch" failFirstDeps).1.archive = [] := by
  decide

/-- C2 (amended): consolidate_memories never lets an exception escape: every
run returns a result, and either the run succeeded with an empty error list,
or exactly the first escaped exception is recorded in the error list, the
summary reports the failure, and the channel's buffer is left untouched —
episodes after the failing one are not processed. -/
theorem consolidate_error_recorded (st : PipelineState) (channel_id : Channel)
    (deps : ConsolidationDeps) :
    (consolidate_memories st channel_id deps).2.errors = []
    ∨ ∃ e, (consolidate_memories st channel_id deps).2.errors = [e]
        ∧ (consolidate_memories st channel_id deps).2.summary
            = "Consolidation failed with error: " ++ e
        ∧ (consolidate_memories st channel_id deps).1.working_memory channel_id
            = st.working_memory channel_id := by
  unfold consolidate_memories
  dsimp only
  split
  · exact Or.inl rfl
  · split
    · exact Or.inl rfl
    · rename_i st1 ep fc e heq
      refine Or.inr ⟨e, rfl, rfl, ?_⟩
      have hwm := processConversations_working_memory channel_id deps
        (group_into_conversations (get_working_memory st channel_id) 30) st 0 0
      rw [heq] at hwm
      exact congrFun hwm channel_id

/-! ### Claim C4 -/

/-- C4: the channel's buffer is cleared only after the whole episode loop
finished without an escaped exception — on the error path (the recorded
errors are nonempty) the buffer is exactly what it was before the run, and
on the success path of a nonempty buffer it is empty afterwards. -/
theorem consolidate_clears_only_after_success (st : PipelineState)
    (channel_id : Channel) (deps : ConsolidationDeps) :
    ((consolidate_memories st channel_id deps).2.errors ≠ [] →
      (consolidate_memories st channel_id deps).1.working_memory channel_id
        = st.working_memory channel_id)
    ∧ ((consolidate_memories st channel_id deps).2.errors = [] →
        st.working_memory channel_id ≠ [] →
        (consolidate_memories st channel_id deps).1.working_memory channel_id
          = []) := by
  unfold consolidate_memories
  dsimp only
  split
  · rename_i hemp
    constructor
    · intro h
      exact absurd rfl h
    · intro _ hne
      exact absurd (List.isEmpty_iff.mp hemp) hne
  · split
    · constructor
      · intro h
        exact absurd rfl h
      · intro _ _
        simp [clear_working_memory]
    · rename_i st1 ep fc e heq
      constructor
      · intro _
        have hwm := processConversations_working_memory channel_id deps
          (group_into_conversations (get_working_memory st channel_id) 30) st 0 0
        rw [heq] at hwm
        exact congrFun hwm channel_id
      · intro h
        exact absurd h (by simp)

/-- C4 witness: a successful scenario-A run leaves the buffer empty, and a
run whose first episode fails leaves the buffer untouched. -/
theorem consolidate_clears_only_after_success_witness :
    (consolidate_memories stScenarioA "ch" okDeps).1.working_memory "ch" = []
    ∧ (consolidate_memories stTwoEpisodes "ch" failFirstDeps).1.working_memory "ch"
        = stTwoEpisodes.working_memory "ch" := by
  constructor
  · exact (consolidate_clears_only_after_success stScenarioA "ch" okDeps).2
      (by decide) (by decide)
  · exact (consolidate_clears_only_after_success stTwoEpisodes "ch" failFirstDeps).1
      (by decide)

/-! ### Claim C3 (witness) -/

def wmTurn (i : Nat) : WorkingMemoryItem :=
  mkTurn "alice" (toString i) (Int.ofNat i) false

/-- C3 witness: 22 appends to a fresh channel keep exactly the last 20 turns
in arrival order. -/
theorem working_memory_window_witness :
    get_working_memory
        (((List.range 22).map wmTurn).foldl
          (fun s m => add_to_working_memory s "c2" m) (stateWithBuffer [] none []))
        "c2"
      = ((List.range 22).map wmTurn).drop 2 := by
  have h := working_memory_window (stateWithBuffer [] none []) "c2"
    ((List.range 22).map wmTurn) rfl
  rw [h.1]
  have h2 : ((List.range 22).map wmTurn).length - working_memory_limit = 2 := by
    simp [working_memory_limit]
  rw [h2]

/-! ### Claim C5 -/

def tEarly : WorkingMemoryItem := mkTurn "alice" "first" 0 false

def tHalfHour : WorkingMemoryItem := mkTurn "alice" "second" 1800 false

def tForty : WorkingMemoryItem := mkTurn "alice" "later" 2400 false

/-- C5 counterexample: two turns exactly 30 minutes (1800 s) apart stay in
ONE episode — the code starts a new episode only on gaps strictly greater
than the threshold, while the claim says a gap of 30 minutes or more starts
a new episode (which would give two). -/
theorem group_thirty_minute_gap_counterexample :
    tHalfHour.timestamp - tEarly.timestamp = 30 * 60
    ∧ group_into_conversations [tEarly, tHalfHour] 30 = [[tEarly, tHalfHour]]
    ∧ (group_into_conversations [tEarly, tHalfHour] 30).length = 1 := by
  decide

/-- C5 witness: scenario B — two turns 40 minutes apart yield a partition
whose concatenation is the input, whose boundaries all exceed the
threshold, and whose chunks are well formed (here: two singleton
episodes). -/
theorem group_into_conversations_partition_witness :
    (group_into_conversations [tEarly, tForty] 30).flatten = [tEarly, tForty]
    ∧ boundaryGapsBig 30 (group_into_conversations [tEarly, tForty] 30) = true
    ∧ ([tEarly] ≠ [] ∧ chunkGapsOk 30 [tEarly] = true)
    ∧ (group_into_conversations [tEarly, tForty] 30).length = 2 := by
  have h := group_into_conversations_partition [tEarly, tForty] 30
  exact ⟨h.1, h.2.2, h.2.1 [tEarly] (by decide), by decide⟩

/-! ### Claim C6 -/

/-- Upserting facts that all carry the given key keeps the key's row count
at most 1. -/
theorem foldl_upsert_countP_le (subject fact_type content : String) :
    ∀ (ws : List (SemanticFact × Int)) (db : List FactRow),
      (∀ p ∈ ws, p.1.subject = subject ∧ p.1.fact_type = fact_type
        ∧ p.1.content = content) →
      db.countP (rowHasKey subject fact_type content) ≤ 1 →
      (ws.foldl (fun d p => add_semantic_fact d p.1 p.2) db).countP
        (rowHasKey subject fact_type content) ≤ 1
  | [], db, _, hinv => hinv
  | p :: rest, db, hkeys, hinv => by
      rw [List.foldl_cons]
      have hp := hkeys p (List.mem_cons_self p rest)
      have h1 := add_semantic_fact_countP db p.1 p.2 subject fact_type content
        hp.1 hp.2.1 hp.2.2 hinv
      exact foldl_upsert_countP_le subject fact_type content rest _
        (fun q hq => hkeys q (List.mem_cons_of_mem p hq)) (by omega)

/-- C6: starting from a store with at most one row for the key
(subject, fact_type, content), upserting facts carrying that key any
positive number of times leaves exactly one row for the key, and that row's
confidence and last_updated reflect the final write. -/
theorem add_semantic_fact_idempotent (db : List FactRow)
    (ws : List (SemanticFact × Int)) (w : SemanticFact × Int)
    (subject fact_type content : String)
    (hkeys : ∀ p ∈ ws ++ [w], p.1.subject = subject
      ∧ p.1.fact_type = fact_type ∧ p.1.content = content)
    (hinv : db.countP (rowHasKey subject fact_type content) ≤ 1) :
    ((ws ++ [w]).foldl (fun d p => add_semantic_fact d p.1 p.2) db).countP
        (rowHasKey subject fact_type content) = 1
    ∧ ∀ row ∈ (ws ++ [w]).foldl (fun d p => add_semantic_fact d p.1 p.2) db,
        rowHasKey subject fact_type content row = true →
        row.confidence = w.1.confidence ∧ row.last_updated = w.2 := by
  have hprefix : ∀ p ∈ ws, p.1.subject = subject ∧ p.1.fact_type = fact_type
      ∧ p.1.content = content :=
    fun p hp => hkeys p (List.mem_append_left [w] hp)
  have hw := hkeys w (List.mem_append_right ws (List.mem_singleton_self w))
  have hle := foldl_upsert_countP_le subject fact_type content ws db hprefix hinv
  rw [List.foldl_append]
  constructor
  · exact add_semantic_fact_countP _ w.1 w.2 subject fact_type content
      hw.1 hw.2.1 hw.2.2 hle
  · exact add_semantic_fact_latest _ w.1 w.2 subject fact_type content
      hw.1 hw.2.1 hw.2.2 hle

def factAliceRain : SemanticFact :=
  { fact_type := "user_preference", subject := "alice", content := "likes rain",
    confidence := 0.9, source_memory_ids := [] }

/-- C6 witness: writing the same (alice, user_preference, likes rain) triple
twice into an empty store leaves one row carrying the second write's
confidence and timestamp. -/
theorem add_semantic_fact_idempotent_witness :
    (([((factAliceRain : SemanticFact), (5 : Int))] ++ [(factAliceRain, 7)]).foldl
        (fun d (p : SemanticFact × Int) => add_semantic_fact d p.1 p.2)
        ([] : List FactRow)).countP
      (rowHasKey "alice" "user_preference" "likes rain") = 1
    ∧ ∀ row ∈ ([((factAliceRain : SemanticFact), (5 : Int))] ++ [(factAliceRain, 7)]).foldl
        (fun d (p : SemanticFact × Int) => add_semantic_fact d p.1 p.2)
        ([] : List FactRow),
        rowHasKey "alice" "user_preference" "likes rain" row = true →
        row.confidence = factAliceRain.confidence ∧ row.last_updated = 7 :=
  add_semantic_fact_idempotent [] [(factAliceRain, 5)] (factAliceRain, 7)
    "alice" "user_preference" "likes rain" (by decide) (by decide)

/-! ### Claim C7 -/

def tSolo : WorkingMemoryItem := mkTurn "alice" "solo" 0 false

def stSolo : PipelineState := stateWithBuffer [tSolo] (some okStore) []

/-- A payload with every field missing. -/
def fdEmpty : FactData :=
  { fact_type := none, subject := none, content := none, confidence := none }

def emptyFactDeps : ConsolidationDeps :=
  { summarize_conversation := fun _ => Except.ok "s"
    extract_facts := fun _ => Except.ok [fdEmpty]
    now := 0 }

/-- C7 counterexample: a payload missing its type, subject, and content
fields is NOT rejected: it is coerced with the defaults
("general", "unknown", "", 0.8), stored in the fact store, and counted in
semantic_facts_extracted. -/
theorem malformed_payload_stored_counterexample :
    (consolidate_memories stSolo "ch" emptyFactDeps).2.semantic_facts_extracted = 1
    ∧ (consolidate_memories stSolo "ch" emptyFactDeps).1.facts
        = [{ fact_type := "general", subject := "unknown", content := "",
             confidence := 0.8, source_memory_ids := [],
             created_at := 0, last_updated := 0 }] := by
  exact ⟨rfl, rfl⟩

/-- C7 (amended): every payload returned by the extraction capability is
coerced into a SemanticFact, with per-field defaults substituted for
missing keys (fact_type → "general", subject → "unknown", content → "",
confidence → 0.8), and every payload — malformed or not — is upserted into
the fact store and counted in semantic_facts_extracted; none is skipped. -/
theorem consolidate_coerces_all_payloads (st : PipelineState)
    (channel_id : Channel) (deps : ConsolidationDeps)
    (buf : List WorkingMemoryItem) (summary : String) (fds : List FactData)
    (hbuf : st.working_memory channel_id = buf) (hne : buf ≠ [])
    (hsingle : group_into_conversations buf 30 = [buf])
    (hvs : st.vector_store = some okStore)
    (hsum : deps.summarize_conversation buf = Except.ok summary)
    (hext : deps.extract_facts summary = Except.ok fds) :
    (consolidate_memories st channel_id deps).2.semantic_facts_extracted
        = fds.length
    ∧ (consolidate_memories st channel_id deps).1.facts
        = fds.foldl (fun db fd => add_semantic_fact db (coerceFactData fd) deps.now)
            st.facts := by
  have h := consolidate_single_episode st channel_id deps buf summary fds
    hbuf hne hsingle hvs hsum hext
  exact ⟨h.2.2.1, h.2.2.2.2.2.1⟩

/-- C7 witness: the all-fields-missing payload is coerced and stored. -/
theorem consolidate_coerces_all_payloads_witness :
    (consolidate_memories stSolo "ch" emptyFactDeps).2.semantic_facts_extracted = 1
    ∧ (consolidate_memories stSolo "ch" emptyFactDeps).1.facts
        = [fdEmpty].foldl
            (fun db fd => add_semantic_fact db (coerceFactData fd) 0)
            ([] : List FactRow) := by
  have h := consolidate_coerces_all_payloads stSolo "ch" emptyFactDeps [tSolo]
    "s" [fdEmpty] rfl (by decide) (by decide) rfl rfl rfl
  exact ⟨h.1, h.2⟩

/-! ### Claim C8 -/

/-- A well-formed payload whose confidence is 5, outside [0, 1]. -/
def fdHigh : FactData :=
  { fact_type := some "user_preference", subject := some "alice",
    content := some "likes rain", confidence := some 5 }

def highConfidenceDeps : ConsolidationDeps :=
  { summarize_conversation := fun _ => Except.ok "s"
    extract_facts := fun _ => Except.ok [fdHigh]
    now := 0 }

/-- C8 (code bug, failing input): when the extraction capability returns
confidence 5, the fact is stored with confidence 5 — nothing clamps or
validates it into [0, 1], although the model's own field documentation says
"(0-1)". -/
theorem semantic_fact_confidence_unbounded :
    (consolidate_memories stSolo "ch" highConfidenceDeps).1.facts
        = [{ fact_type := "user_preference", subject := "alice",
             content := "likes rain", confidence := 5, source_memory_ids := [],
             created_at := 0, last_updated := 0 }]
    ∧ ∀ row ∈ (consolidate_memories stSolo "ch" highConfidenceDeps).1.facts,
        ¬(row.confidence ≤ 1) := by
  refine ⟨rfl, ?_⟩
  have hfacts : (consolidate_memories stSolo "ch" highConfidenceDeps).1.facts
      = [{ fact_type := "user_preference", subject := "alice",
           content := "likes rain", confidence := 5, source_memory_ids := [],
           created_at := 0, last_updated := 0 }] := rfl
  intro row hrow
  rw [hfacts] at hrow
  rcases List.mem_singleton.mp hrow with rfl
  decide

/-! ### Claim C9 -/

/-- C9: with an unconfigured vector store, search_episodic_memory returns
the empty sequence for every query, and never raises (the `Except.ok`
codomain witnesses that no exception reaches the caller). -/
theorem search_episodic_memory_unconfigured (query : MemorySearchQuery)
    (now : Int) :
    search_episodic_memory none query now = Except.ok [] := rfl

/-! ### Claim C10 -/

/-- A vector store whose every external call fails. -/
def failStore : VectorStore :=
  { add_texts := fun _ _ => Except.error "index down"
    similarity_search_with_score := fun _ _ _ => Except.error "index down" }

/-- C10: add_episodic_memory never propagates an exception: with an
unconfigured store it returns ("" , state unchanged); when the store body
raises, the exception is swallowed and "" is returned; and the pipeline's
archival loop over an unconfigured store counts nothing — only stores that
returned a non-empty id are counted. -/
theorem add_episodic_memory_never_raises (st : PipelineState)
    (memory : EpisodicMemoryItem) :
    (st.vector_store = none → add_episodic_memory st memory = (st, ""))
    ∧ (∀ vs st2 e, st.vector_store = some vs →
        add_episodic_memory_body st vs memory = Except.error (st2, e) →
        add_episodic_memory st memory = (st2, ""))
    ∧ (∀ channel_id summary n pairs, st.vector_store = none →
        archivePairs channel_id summary st n pairs = (st, n)) := by
  refine ⟨?_, ?_, ?_⟩
  · intro h
    unfold add_episodic_memory
    rw [h]
  · intro vs st2 e hvs hbody
    unfold add_episodic_memory
    rw [hvs]
    dsimp only
    rw [hbody]
  · intro channel_id summary n pairs h
    induction pairs generalizing n with
    | nil => rfl
    | cons p rest ih =>
        rw [archivePairs]
        have hadd : add_episodic_memory st (mkPairMemory channel_id summary p)
            = (st, "") := by
          unfold add_episodic_memory
          rw [h]
        rw [hadd]
        dsimp only
        rw [if_neg (by simp)]
        exact ih n

def stNoStore : PipelineState := stateWithBuffer [] none []

def stFailStore : PipelineState := stateWithBuffer [] (some failStore) []

def epMemEx : EpisodicMemoryItem := mkPairMemory "ch" "s" (tAliceHi, tAgentHi)

/-- C10 witness: a failing backend write yields the empty id without an
exception, and the archival loop over an unconfigured store counts
nothing. -/
theorem add_episodic_memory_never_raises_witness :
    add_episodic_memory stFailStore epMemEx = (stFailStore, "")
    ∧ archivePairs "ch" "s" stNoStore 0 [(tAliceHi, tAgentHi)] = (stNoStore, 0) := by
  constructor
  · exact (add_episodic_memory_never_raises stFailStore epMemEx).2.1 failStore
      stFailStore "index down" rfl rfl
  · exact (add_episodic_memory_never_raises stNoStore epMemEx).2.2 "ch" "s" 0
      [(tAliceHi, tAgentHi)] rfl

end LamyMemory
